import Mathlib

/-!
A shallow embedding of the `histver` release-version table tool: the table
store (`tableRow`, `merge`, `fromStrings`, `fromVersion`, `writeTable`,
`readTable`) and the per-release resolution pipeline (`getReleaseVersion`,
`getReleaseVersionZip`, `getReleaseVersionTarGz`, `getVersionFromReader`).

Strings are modelled as Lean `String` (a list of characters); every byte-level
Go string operation the program performs acts on ASCII characters, where the
byte view and the character view coincide.  External effects are modelled at
their interface boundary: an HTTP download is the outcome it produces, a
decoded archive is the list of decoder outcomes, the CSV encoder/decoder is
modelled at the record level (a record is a list of fields), and the
subprocess probes are the records or errors they yield.  Panics are modelled
as `Option` (`none` = panic), fallible operations as `Except String`.
-/

/-! ## Go standard-library string helpers used by the program -/

/-- Go `cmp.Or` on strings: the first of its two arguments that is not the
zero value (the zero value of `string` is `""`). -/
def cmpOr (x y : String) : String := if x = "" then y else x

/-- Go `strings.Trim(s, "*")` on a character list: remove all leading and all
trailing `'*'` characters. -/
def starTrimmedL (l : List Char) : List Char :=
  ((l.dropWhile (· == '*')).reverse.dropWhile (· == '*')).reverse

/-- Go `strings.Trim(s, "*")`. -/
def trimStar (s : String) : String := ⟨starTrimmedL s.data⟩

/-- The prefix of `s` strictly before its last `'.'`: Go
`s[:strings.LastIndex(s, ".")]`.  `none` models the slice panic when `s`
contains no dot (`LastIndex` returns `-1` and `s[:-1]` panics). -/
def minorIdent (s : String) : Option String :=
  match s.data.reverse.dropWhile (fun c => c != '.') with
  | [] => none
  | _ :: rest => some ⟨rest.reverse⟩

/-- The runtime minor-version identifier computed by `writeTable`: a runtime
with exactly one `'.'` (old-style `go1.2`) is used unmodified, otherwise the
final `'.'`-separated component is stripped. -/
def runMinorIdent (s : String) : Option String :=
  if s.data.countP (fun c => c == '.') = 1 then some s else minorIdent s

/-! ## The table row -/

/-- The table row: release version, build runtime, release date, each possibly
empty. -/
structure tableRow where
  Version : String
  Runtime : String
  Date : String
deriving DecidableEq

/-- `tableRow.merge`: each field is `cmp.Or(other.field, t.field)` — the
argument's field when it is non-empty, the receiver's field otherwise. -/
def tableRow.merge (t other : tableRow) : tableRow :=
  { Version := cmpOr other.Version t.Version
    Runtime := cmpOr other.Runtime t.Runtime
    Date := cmpOr other.Date t.Date }

/-- `tableRow.fromStrings`: fails when fewer than three fields are present;
otherwise takes the first three fields with surrounding `'*'` trimmed. -/
def tableRow.fromStrings (ss : List String) : Except String tableRow :=
  if ss.length < 3 then .error "not enough fields"
  else .ok { Version := trimStar (ss.getD 0 "")
             Runtime := trimStar (ss.getD 1 "")
             Date := trimStar (ss.getD 2 "") }

/-- `tableRow.toStrings`. -/
def tableRow.toStrings (r : tableRow) : List String := [r.Version, r.Runtime, r.Date]

/-- The header row `Version,Runtime,Date`. -/
def tableHeader : List String := ["Version", "Runtime", "Date"]

/-- The row obtained by re-parsing a written row: every field trimmed of
surrounding `'*'` (what `fromStrings` does to a three-field record). -/
def stripRow (r : tableRow) : tableRow :=
  { Version := trimStar r.Version, Runtime := trimStar r.Runtime, Date := trimStar r.Date }

/-! ## The banner regular expression of `tableRow.fromVersion`

The source matches its input against
`syncthing (v\d+\.\d+\.\d+).*(go\d+\.\d+(?:\.\d+)?).*(\d{4}-\d{2}-\d{2}) `
with Go `regexp` (leftmost-first, Perl-preference) submatch semantics.  The
pattern is embedded as a backtracking matcher: a matcher returns every way a
pattern piece can consume a prefix of the input — remaining suffix plus
captured groups — in exactly the preference order of leftmost-first matching
(greedy quantifiers offer longer consumption first).  The first alternative at
the first matching start position is the submatch Go reports. -/

/-- Match alternatives: remaining input and captured groups, in preference
order. -/
abbrev MRes := List (List Char × List (List Char))

/-- A pattern piece. -/
abbrev Matcher := List Char → MRes

/-- The empty pattern. -/
def mEmpty : Matcher := fun s => [(s, [])]

/-- Concatenation; the left piece's preference order is the outer one. -/
def mSeq (m1 m2 : Matcher) : Matcher := fun s =>
  (m1 s).flatMap fun p => (m2 p.1).map fun q => (q.1, p.2 ++ q.2)

/-- Concatenation of a list of pieces. -/
def mSeqAll (ms : List Matcher) : Matcher := ms.foldr mSeq mEmpty

/-- A literal character sequence. -/
def mLit (lit : List Char) : Matcher := fun s =>
  if lit.isPrefixOf s then [(s.drop lit.length, [])] else []

/-- A single character of a class. -/
def mChar (p : Char → Bool) : Matcher := fun s =>
  match s with
  | [] => []
  | c :: rest => if p c then [(rest, [])] else []

/-- The suffixes reachable by consuming a (possibly empty) run of class-`p`
characters, longest consumed run first; `acc` accumulates the
shorter-consumption alternatives already known to follow. -/
def starAlts (p : Char → Bool) : List Char → MRes → MRes
  | [], acc => ([], []) :: acc
  | c :: rest, acc =>
    if p c then starAlts p rest ((c :: rest, []) :: acc)
    else (c :: rest, []) :: acc

/-- Greedy `*` over a character class: the longest run first, possibly
empty. -/
def mStarGreedy (p : Char → Bool) : Matcher := fun s => starAlts p s []

/-- Greedy `+` over a character class: the longest run first, at least one
character. -/
def mPlusGreedy (p : Char → Bool) : Matcher := fun s =>
  match s with
  | [] => []
  | c :: rest => if p c then starAlts p rest [] else []

/-- Greedy `?`: the present alternative first. -/
def mOpt (m : Matcher) : Matcher := fun s => m s ++ [(s, [])]

/-- A capture group: records the consumed prefix, numbered before any group
nested inside it. -/
def mGroup (m : Matcher) : Matcher := fun s =>
  (m s).map fun p => (p.1, s.take (s.length - p.1.length) :: p.2)

/-- `\d+` (greedy). -/
def mDigits : Matcher := mPlusGreedy Char.isDigit

/-- `\d{k}`. -/
def mDigitCount (k : Nat) : Matcher := mSeqAll (List.replicate k (mChar Char.isDigit))

/-- `(v\d+\.\d+\.\d+)`. -/
def mVerGroup : Matcher :=
  mGroup (mSeqAll [mLit ['v'], mDigits, mLit ['.'], mDigits, mLit ['.'], mDigits])

/-- `(go\d+\.\d+(?:\.\d+)?)`. -/
def mGoGroup : Matcher :=
  mGroup (mSeqAll [mLit ['g', 'o'], mDigits, mLit ['.'], mDigits,
    mOpt (mSeqAll [mLit ['.'], mDigits])])

/-- `(\d{4}-\d{2}-\d{2})`. -/
def mDateGroup : Matcher :=
  mGroup (mSeqAll [mDigitCount 4, mLit ['-'], mDigitCount 2, mLit ['-'], mDigitCount 2])

/-- `.*` — any character other than a newline, greedy. -/
def mDotStar : Matcher := mStarGreedy (fun c => c != '\n')

/-- The whole pattern of `tableRow.fromVersion` (note the trailing space). -/
def versionBannerPat : Matcher :=
  mSeqAll [mLit "syncthing ".data, mVerGroup, mDotStar, mGoGroup, mDotStar,
    mDateGroup, mLit [' ']]

/-- `regexp.FindStringSubmatch`: try each start position left to right; at the
first position with a match report the full match followed by the captures of
the first (most preferred) alternative; `none` when no position matches. -/
def regexCaptures (pat : Matcher) : List Char → Option (List (List Char))
  | [] =>
    match pat [] with
    | p :: _ => some ([] :: p.2)
    | [] => none
  | c :: rest =>
    match pat (c :: rest) with
    | p :: _ => some ((c :: rest).take ((c :: rest).length - p.1.length) :: p.2)
    | [] => regexCaptures pat rest

/-- `tableRow.fromVersion`: match the banner expression; fewer than three
entries in the submatch slice (that is, no match at all — a successful match
of this pattern always yields four) is the parse failure; otherwise the three
captured groups become the three fields. -/
def tableRow.fromVersion (ver : String) : Except String tableRow :=
  match regexCaptures versionBannerPat ver.data with
  | none => .error "failed to parse version"
  | some m =>
    if m.length < 3 then .error "failed to parse version"
    else .ok { Version := ⟨m.getD 1 []⟩, Runtime := ⟨m.getD 2 []⟩, Date := ⟨m.getD 3 []⟩ }

/-! ## The formatting pass and serialization of the table store -/

/-- Lexicographic order on character lists by code point. -/
def charListLt : List Char → List Char → Bool
  | [], [] => false
  | [], _ :: _ => true
  | _ :: _, [] => false
  | a :: as, b :: bs =>
    if a.toNat < b.toNat then true
    else if b.toNat < a.toNat then false
    else charListLt as bs

/-- Go's `<` on strings (byte-wise lexicographic; on the ASCII data handled
here the byte order and the code-point order agree). -/
def strLt (a b : String) : Bool := charListLt a.data b.data

/-- The `sort.Slice` comparator of `writeTable` as written in the source:
descending by `Date`, descending by `Version` on equal dates. -/
def goLess (a b : tableRow) : Bool :=
  if a.Date = b.Date then strLt b.Version a.Version else strLt b.Date a.Date

/-- The sort performed at the top of `writeTable`.  Go's `sort.Slice` is an
unstable sort whose result is consistent with the comparator; it is modelled
by a deterministic sort consistent with the same comparator. -/
def sortRows (rows : List tableRow) : List tableRow :=
  List.insertionSort (fun a b => goLess a b = true) rows

/-- `fmt.Sprintf("**%s**", s)`. -/
def emphWrap (s : String) : String := "**" ++ s ++ "**"

/-- The formatting loop of `writeTable`, iterating over the rows oldest-first
(the reverse of the descending sorted order), threading the previously seen
runtime and version minor identifiers and wrapping a row's `Runtime`
(respectively `Version`) in `**` when its minor identifier differs from the
previous one.  `none` models the slice panic raised when a `Runtime` (other
than the one-dot legacy form) or a `Version` contains no `'.'`. -/
def emphLoop : List tableRow → String → String → Option (List tableRow)
  | [], _, _ => some []
  | r :: rest, prevRun, prevSyn =>
    match runMinorIdent r.Runtime with
    | none => none
    | some runMinor =>
      match minorIdent r.Version with
      | none => none
      | some synMinor =>
        let rt := if runMinor ≠ prevRun then emphWrap r.Runtime else r.Runtime
        let pr2 := if runMinor ≠ prevRun then runMinor else prevRun
        let vs := if synMinor ≠ prevSyn then emphWrap r.Version else r.Version
        let ps2 := if synMinor ≠ prevSyn then synMinor else prevSyn
        match emphLoop rest pr2 ps2 with
        | none => none
        | some l2 => some ({ Version := vs, Runtime := rt, Date := r.Date } :: l2)

/-- `writeTable`, producing the CSV records (the header row followed by the
formatted data rows in sorted, newest-first order) handed to the CSV writer;
`none` models a panic in the formatting pass. -/
def writeTable (rows : List tableRow) : Option (List (List String)) :=
  (emphLoop (sortRows rows).reverse "" "").map
    (fun l => tableHeader :: (l.reverse.map tableRow.toStrings))

/-- `readTable`, consuming the records produced by the CSV reader: empty
records are skipped, records whose first field equals the first header field
are skipped, every other record is parsed with `fromStrings` and a parse
failure aborts the whole read. -/
def readTable : List (List String) → Except String (List tableRow)
  | [] => .ok []
  | ss :: rest =>
    match ss with
    | [] => readTable rest
    | s0 :: _ =>
      if s0 = tableHeader.headD "" then readTable rest
      else
        match tableRow.fromStrings ss with
        | .error e => .error e
        | .ok row =>
          match readTable rest with
          | .error e => .error e
          | .ok rows => .ok (row :: rows)

/-! ## Go `path` and `path/filepath` helpers -/

/-- Split a character list on `'/'` (the fields between slashes, like
`strings.Split`). -/
def splitSlash : List Char → List (List Char)
  | [] => [[]]
  | c :: rest =>
    let r := splitSlash rest
    if c = '/' then [] :: r
    else
      match r with
      | h :: t => (c :: h) :: t
      | [] => [[c]]

/-- Element processing of Go `path.Clean`: empty and `"."` elements are
dropped; `".."` pops a poppable element, stays in a relative path when
nothing can be popped, and is dropped at the root of a rooted path. -/
def cleanElems (rooted : Bool) : List String → List String → List String
  | [], acc => acc.reverse
  | e :: rest, acc =>
    if e = "" ∨ e = "." then cleanElems rooted rest acc
    else if e = ".." then
      match acc with
      | [] => if rooted then cleanElems rooted rest [] else cleanElems rooted rest [".."]
      | top :: acc' =>
        if top = ".." then cleanElems rooted rest (".." :: top :: acc')
        else cleanElems rooted rest acc'
    else cleanElems rooted rest (e :: acc)

/-- Go `path.Clean`. -/
def pathClean (p : String) : String :=
  if p = "" then "."
  else
    let rooted := p.data.headD ' ' = '/'
    let elems := cleanElems rooted ((splitSlash p.data).map (fun l => (⟨l⟩ : String))) []
    let joined := String.intercalate "/" elems
    if joined = "" then (if rooted then "/" else ".")
    else (if rooted then "/" ++ joined else joined)

/-- The directory part of Go `path.Split`: the prefix up to and including the
final `'/'` (empty when there is no slash). -/
def dirPart (l : List Char) : List Char :=
  (l.reverse.dropWhile (fun c => c != '/')).reverse

/-- Go `path.Dir`: the `path.Split` directory part, `Clean`ed. -/
def pathDir (p : String) : String := pathClean ⟨dirPart p.data⟩

/-- Go `path.Base`: the last element after removing trailing slashes; `"."`
for the empty path, `"/"` when the path is all slashes. -/
def pathBase (p : String) : String :=
  if p = "" then "."
  else
    let l := p.data.reverse.dropWhile (fun c => c == '/')
    if l = [] then "/"
    else ⟨(l.takeWhile (fun c => c != '/')).reverse⟩

/-- Scan helper of Go `filepath.Ext`: walk the reversed name, accumulating
the suffix, stopping at a path separator; a dot yields the extension
including the dot. -/
def filepathExtScan : List Char → List Char → String
  | [], _ => ""
  | c :: rest, acc =>
    if c = '/' then "" else if c = '.' then ⟨c :: acc⟩ else filepathExtScan rest (c :: acc)

/-- Go `filepath.Ext`: the suffix beginning at the final dot in the final
element; empty when there is no dot. -/
def filepathExt (p : String) : String := filepathExtScan p.data.reverse []

/-! ## The resolution pipeline of `synver.go` -/

/-- A calendar date (the date components of a release creation timestamp). -/
structure GoDate where
  year : Nat
  month : Nat
  day : Nat
deriving DecidableEq

/-- A two-digit zero-padded component. -/
def pad2 (n : Nat) : String := if n < 10 then "0" ++ Nat.repr n else Nat.repr n

/-- Go `time.Format` with the layout string `"2006-01-01"` exactly as written
in `getReleaseVersion`.  In Go's reference time the month is the layout token
`01` and the day of month is `02`; this layout therefore renders year, month,
and the month a second time — the day of month is never printed. -/
def formatCreatedAt (d : GoDate) : String :=
  Nat.repr d.year ++ "-" ++ pad2 d.month ++ "-" ++ pad2 d.month

/-- Modelled from the spec: the ISO `YYYY-MM-DD` rendering of a date (§3's
`date` field format), for comparison with `formatCreatedAt`. -/
def isoDate (d : GoDate) : String :=
  Nat.repr d.year ++ "-" ++ pad2 d.month ++ "-" ++ pad2 d.day

/-- One entry of a decoded zip archive: its name and the outcome of
`f.Open()` — an opaque handle to the entry's contents, or an error. -/
structure zipEntry where
  name : String
  openRes : Except String Nat

/-- The entry scan of `getReleaseVersionZip`: skip entries whose `path.Dir`
contains a `'/'`, skip entries whose `path.Base` is not `"syncthing"`; open
the first remaining entry and probe it (`probe` stands for
`getVersionFromReader` applied to the opened entry). -/
def zipScan (probe : Nat → Except String tableRow) :
    List zipEntry → Except String tableRow
  | [] => .error "no syncthing binary found"
  | f :: rest =>
    if (pathDir f.name).data.contains '/' then zipScan probe rest
    else if pathBase f.name ≠ "syncthing" then zipScan probe rest
    else
      match f.openRes with
      | .error e => .error e
      | .ok h => probe h

/-- `getReleaseVersionZip`: the outcome of `zip.NewReader` (an error for a
corrupt archive, the entry list otherwise), then the entry scan. -/
def getReleaseVersionZip (probe : Nat → Except String tableRow)
    (archive : Except String (List zipEntry)) : Except String tableRow :=
  match archive with
  | .error e => .error e
  | .ok files => zipScan probe files

/-- The entry scan of `getReleaseVersionTarGz`: the list holds the successive
outcomes of `tar.Next` (the list ends where the stream would report `io.EOF`);
any `Next` error — end of archive and a corrupt stream alike — breaks the
loop, after which the not-found error is returned. -/
def tarScan (probe : String → Except String tableRow) :
    List (Except String String) → Except String tableRow
  | [] => .error "no syncthing binary found"
  | .error _ :: _ => .error "no syncthing binary found"
  | .ok name :: rest =>
    if pathBase name ≠ "syncthing" then tarScan probe rest else probe name

/-- `getReleaseVersionTarGz`: the outcome of `gzip.NewReader` (an error for a
corrupt gzip header), then the sequential tar entry scan. -/
def getReleaseVersionTarGz (probe : String → Except String tableRow)
    (gz : Except String Unit) (items : List (Except String String)) :
    Except String tableRow :=
  match gz with
  | .error e => .error e
  | .ok _ => tarScan probe items

/-- The outcomes of the host operations performed by one
`getVersionFromReader` call: temporary-file creation, the byte copy into it,
`chmod`, and the two probe strategies in order. -/
structure probeHost where
  createRes : Except String Unit
  copyRes : Except String Unit
  chmodRes : Except String Unit
  cmdRes : Except String tableRow
  goRes : Except String tableRow

/-- `getVersionFromReader`.  The second component records whether the
temporary file still exists when the call returns: `defer os.Remove` is
registered only after the `io.Copy` error check, so the copy-failure path
returns with the file still present, while every later path removes it. -/
def getVersionFromReader (h : probeHost) : Except String tableRow × Bool :=
  match h.createRes with
  | .error e => (.error e, false)
  | .ok _ =>
    match h.copyRes with
    | .error e => (.error e, true)
    | .ok _ =>
      match h.chmodRes with
      | .error e => (.error e, false)
      | .ok _ =>
        match h.cmdRes with
        | .ok row => (.ok row, false)
        | .error _ => (h.goRes, false)

/-- A release asset: name and download URL. -/
structure releaseAsset where
  name : String
  url : String

/-- A release: tag name, creation date, assets. -/
structure Release where
  tagName : String
  createdAt : GoDate
  assets : List releaseAsset

/-- The host environment of one `getReleaseVersion` call: the platform
identifiers and the outcomes of the external operations (download per URL,
the archive decoders and probes per opaque byte-buffer handle). -/
structure resolveHost where
  goos : String
  goarch : String
  fetch : String → Except String Nat
  zipArchive : Nat → Except String (List zipEntry)
  zipProbe : Nat → Except String tableRow
  gzHeader : Nat → Except String Unit
  tarItems : Nat → List (Except String String)
  tarProbe : String → Except String tableRow

/-- The seed row `getReleaseVersion` builds from release metadata alone. -/
def seedRow (rel : Release) : tableRow :=
  { Version := rel.tagName, Runtime := "", Date := formatCreatedAt rel.createdAt }

/-- The asset loop of `getReleaseVersion`: the first asset whose name starts
with the platform prefix is downloaded and dispatched on its file extension;
every outcome for that asset returns from the function (no later asset is
tried); with no matching asset the no-asset error is returned. -/
def assetScan (h : resolveHost) (row : tableRow) (find : String) :
    List releaseAsset → Except String tableRow
  | [] => .error "no asset found"
  | a :: rest =>
    if find.data.isPrefixOf a.name.data then
      match h.fetch a.url with
      | .error e => .error e
      | .ok bs =>
        if filepathExt a.name = ".zip" then
          match getReleaseVersionZip h.zipProbe (h.zipArchive bs) with
          | .error e => .error e
          | .ok r => .ok (row.merge r)
        else
          match getReleaseVersionTarGz h.tarProbe (h.gzHeader bs) (h.tarItems bs) with
          | .error e => .error e
          | .ok r => .ok (row.merge r)
    else assetScan h row find rest

/-- `getReleaseVersion`: remap the `darwin` OS identifier to `macos`, build
the seed row and the platform asset-name prefix, and run the asset loop. -/
def getReleaseVersion (h : resolveHost) (rel : Release) : Except String tableRow :=
  let goos := if h.goos = "darwin" then "macos" else h.goos
  let row := seedRow rel
  let find := "syncthing-" ++ goos ++ "-" ++ h.goarch
  assetScan h row find rel.assets

/-- One iteration of `main`'s release loop: a tag already in the `seen` set is
skipped; a failed resolution is logged and appends nothing; a successful
resolution appends its row. -/
def driverStep (h : resolveHost) (seen : List String) (table : List tableRow)
    (rel : Release) : List tableRow :=
  if seen.contains rel.tagName then table
  else
    match getReleaseVersion h rel with
    | .error _ => table
    | .ok row => table ++ [row]

/-- The version column the formatting loop produces, as a function of the
version fields and the version-minor state alone (the runtime fields never
influence it); proven below to agree with `emphLoop` whenever the latter
succeeds. -/
def versionCol : List tableRow → String → List String
  | [], _ => []
  | r :: rest, prevSyn =>
    match minorIdent r.Version with
    | none => []
    | some synMinor =>
      (if synMinor ≠ prevSyn then emphWrap r.Version else r.Version)
        :: versionCol rest (if synMinor ≠ prevSyn then synMinor else prevSyn)

/-- A host on which the single matching asset downloads but its gzip header
is corrupt (used to exercise the failure paths of the resolver). -/
def failHost : resolveHost :=
  { goos := "linux", goarch := "amd64"
    fetch := fun _ => .ok 0
    zipArchive := fun _ => .error "zip: not a valid zip file"
    zipProbe := fun _ => .error "unused"
    gzHeader := fun _ => .error "gzip: invalid header"
    tarItems := fun _ => []
    tarProbe := fun _ => .error "unused" }

/-- A release with one tar.gz asset matching the `linux`/`amd64` prefix. -/
def relTarGz : Release :=
  { tagName := "v1.0.0", createdAt := ⟨2021, 5, 6⟩
    assets := [{ name := "syncthing-linux-amd64-v1.0.0.tar.gz", url := "u" }] }

/-- A host on which archives decode but the executable entry is absent from
tar archives and the probe of a zip's top-level `syncthing` entry fails
(used to exercise the missing-entry and probe-failure resolution modes). -/
def probeFailHost : resolveHost :=
  { goos := "linux", goarch := "amd64"
    fetch := fun _ => .ok 0
    zipArchive := fun _ => .ok [{ name := "syncthing", openRes := .ok 0 }]
    zipProbe := fun _ => .error "exec failed"
    gzHeader := fun _ => .ok ()
    tarItems := fun _ => [.ok "data.txt"]
    tarProbe := fun _ => .error "exec failed" }


/-! ## Helper lemmas about trimming and minor identifiers -/

theorem starTrimmedL_eq_rdrop (l : List Char) :
    starTrimmedL l = (l.dropWhile (· == '*')).rdropWhile (· == '*') := rfl

theorem dropStar_eq_of_trim {l : List Char} (h : starTrimmedL l = l) :
    l.dropWhile (· == '*') = l := by
  have hsub : (l.dropWhile (· == '*')).Sublist l := (List.dropWhile_suffix _).sublist
  apply hsub.eq_of_length
  have h1 : (starTrimmedL l).length ≤ (l.dropWhile (· == '*')).length := by
    rw [starTrimmedL_eq_rdrop]
    exact (List.rdropWhile_prefix _ _).sublist.length_le
  rw [h] at h1
  exact Nat.le_antisymm hsub.length_le h1

theorem rdropStar_eq_of_trim {l : List Char} (h : starTrimmedL l = l) :
    l.rdropWhile (· == '*') = l := by
  have h1 := dropStar_eq_of_trim h
  rw [starTrimmedL_eq_rdrop, h1] at h
  exact h

theorem trimStar_data {s : String} (h : trimStar s = s) :
    starTrimmedL s.data = s.data := congrArg String.data h

theorem starTrimmedL_wrap {l : List Char} (h : starTrimmedL l = l) :
    starTrimmedL ('*' :: '*' :: (l ++ ['*', '*'])) = l := by
  have h1 := dropStar_eq_of_trim h
  have h2 := rdropStar_eq_of_trim h
  rw [starTrimmedL_eq_rdrop]
  rw [List.dropWhile_cons_of_pos (by decide), List.dropWhile_cons_of_pos (by decide)]
  rw [List.dropWhile_append]
  rcases l with _ | ⟨a, t⟩
  · decide
  · rw [h1]
    simp only [List.isEmpty_cons, if_false, Bool.false_eq_true]
    have hassoc : (a :: t) ++ ['*', '*'] = ((a :: t) ++ ['*']) ++ ['*'] := by simp
    rw [hassoc, List.rdropWhile_concat_pos _ _ _ (by decide),
      List.rdropWhile_concat_pos _ _ _ (by decide)]
    exact h2

theorem emphWrap_data (s : String) :
    (emphWrap s).data = '*' :: '*' :: (s.data ++ ['*', '*']) := by
  show ("**" ++ s ++ "**").data = _
  rw [String.data_append, String.data_append]
  simp

/-- Trimming inverts the emphasis wrapper on a field carrying no surrounding
stars of its own. -/
theorem trimStar_emphWrap {s : String} (h : trimStar s = s) :
    trimStar (emphWrap s) = s := by
  have hd := trimStar_data h
  have : trimStar (emphWrap s) = ⟨s.data⟩ := by
    unfold trimStar
    rw [emphWrap_data, starTrimmedL_wrap hd]
  rw [this]

theorem emphWrap_ne_header (s : String) : emphWrap s ≠ "Version" := by
  intro h
  have h1 : (emphWrap s).data.head? = some '*' := by rw [emphWrap_data]; rfl
  rw [h] at h1
  have h2 : ("Version" : String).data.head? = some 'V' := by decide
  exact absurd (h1.symm.trans h2) (by decide)

theorem ne_header_of_dot {s : String} (h : '.' ∈ s.data) : s ≠ "Version" := by
  rintro rfl
  revert h
  decide

theorem minorIdent_eq_none_iff {s : String} : minorIdent s = none ↔ '.' ∉ s.data := by
  have key : s.data.reverse.dropWhile (fun c => c != '.') = [] ↔ '.' ∉ s.data := by
    rw [List.dropWhile_eq_nil_iff]
    constructor
    · intro h hmem
      have h2 := h '.' (by simpa using hmem)
      simp at h2
    · intro h c hc
      have hc2 : c ∈ s.data := by simpa using hc
      simp only [bne_iff_ne, ne_eq]
      rintro rfl
      exact h hc2
  unfold minorIdent
  rcases hd : s.data.reverse.dropWhile (fun c => c != '.') with _ | ⟨c, rest⟩
  · simp [← key, hd]
  · simp [← key, hd]

theorem minorIdent_isSome_iff {s : String} : (minorIdent s).isSome ↔ '.' ∈ s.data := by
  rcases h : minorIdent s with _ | m
  · simpa using minorIdent_eq_none_iff.mp h
  · have h1 : ¬ minorIdent s = none := by rw [h]; simp
    have h2 : ¬ '.' ∉ s.data := fun hn => h1 (minorIdent_eq_none_iff.mpr hn)
    simp [not_not.mp h2]

theorem runMinorIdent_isSome_iff {s : String} :
    (runMinorIdent s).isSome ↔ '.' ∈ s.data := by
  unfold runMinorIdent
  by_cases hc : s.data.countP (fun c => c == '.') = 1
  · rw [if_pos hc]
    simp only [Option.isSome_some, true_iff]
    have hpos : 0 < s.data.countP (fun c => c == '.') := by omega
    obtain ⟨a, ha, hb⟩ := List.countP_pos_iff.mp hpos
    have : a = '.' := by simpa using hb
    rw [← this]
    exact ha
  · rw [if_neg hc]
    exact minorIdent_isSome_iff

theorem minorIdent_dot {s m : String} (h : minorIdent s = some m) : '.' ∈ s.data :=
  minorIdent_isSome_iff.mp (by rw [h]; rfl)

theorem runMinorIdent_dot {s m : String} (h : runMinorIdent s = some m) : '.' ∈ s.data :=
  runMinorIdent_isSome_iff.mp (by rw [h]; rfl)

theorem sortRows_perm (rows : List tableRow) : List.Perm (sortRows rows) rows :=
  List.perm_insertionSort _ rows

/-! ## Structure of the formatting loop -/

/-- A successful formatting loop requires — and only requires — a dot in every
row's `Runtime` and `Version`. -/
theorem emphLoop_isSome_iff : ∀ (l : List tableRow) (pr ps : String),
    (emphLoop l pr ps).isSome ↔ ∀ r ∈ l, '.' ∈ r.Runtime.data ∧ '.' ∈ r.Version.data := by
  intro l
  induction l with
  | nil => intro pr ps; simp [emphLoop]
  | cons r rest ih =>
    intro pr ps
    rcases h1 : runMinorIdent r.Runtime with _ | m1
    · simp only [emphLoop, h1, Option.isSome_none, Bool.false_eq_true, false_iff]
      intro hall
      have := (hall r (List.mem_cons_self r rest)).1
      rw [← runMinorIdent_isSome_iff, h1] at this
      simp at this
    · rcases h2 : minorIdent r.Version with _ | m2
      · simp only [emphLoop, h1, h2, Option.isSome_none, Bool.false_eq_true, false_iff]
        intro hall
        have := (hall r (List.mem_cons_self r rest)).2
        rw [← minorIdent_isSome_iff, h2] at this
        simp at this
      · have hr1 : '.' ∈ r.Runtime.data := runMinorIdent_dot h1
        have hr2 : '.' ∈ r.Version.data := minorIdent_dot h2
        simp only [emphLoop, h1, h2]
        rcases h3 : emphLoop rest (if m1 ≠ pr then m1 else pr) (if m2 ≠ ps then m2 else ps)
            with _ | l2
        · simp only [Option.isSome_none, Bool.false_eq_true, false_iff]
          intro hall
          have := (ih (if m1 ≠ pr then m1 else pr) (if m2 ≠ ps then m2 else ps)).mpr
            (fun x hx => hall x (List.mem_cons_of_mem r hx))
          rw [h3] at this
          simp at this
        · simp only [Option.isSome_some, true_iff]
          intro x hx
          rcases List.mem_cons.mp hx with rfl | hx2
          · exact ⟨hr1, hr2⟩
          · have := (ih (if m1 ≠ pr then m1 else pr) (if m2 ≠ ps then m2 else ps)).mp
              (by rw [h3]; rfl)
            exact this x hx2

/-- A successful formatting loop only wraps fields in `**`: trimming each
output row recovers the corresponding input row (when the input rows carry no
surrounding stars), and no output row's version field collides with the
header field. -/
theorem emphLoop_strip : ∀ (l : List tableRow) (pr ps : String) (out : List tableRow),
    emphLoop l pr ps = some out → (∀ r ∈ l, stripRow r = r) →
    out.map stripRow = l ∧ ∀ x ∈ out, x.Version ≠ "Version" := by
  intro l
  induction l with
  | nil =>
    intro pr ps out h _
    simp only [emphLoop, Option.some.injEq] at h
    subst h
    simp
  | cons r rest ih =>
    intro pr ps out h hm
    rcases h1 : runMinorIdent r.Runtime with _ | m1
    · simp only [emphLoop, h1] at h
      exact Option.noConfusion h
    · rcases h2 : minorIdent r.Version with _ | m2
      · simp only [emphLoop, h1, h2] at h
        exact Option.noConfusion h
      · simp only [emphLoop, h1, h2] at h
        rcases h3 : emphLoop rest (if m1 ≠ pr then m1 else pr) (if m2 ≠ ps then m2 else ps)
            with _ | l2
        · rw [h3] at h; cases h
        · rw [h3] at h
          simp only [Option.some.injEq] at h
          subst h
          have hr := hm r (List.mem_cons_self r rest)
          have hv : trimStar r.Version = r.Version := congrArg tableRow.Version hr
          have hrt : trimStar r.Runtime = r.Runtime := congrArg tableRow.Runtime hr
          have hdt : trimStar r.Date = r.Date := congrArg tableRow.Date hr
          obtain ⟨ihmap, ihver⟩ := ih _ _ l2 h3 (fun x hx => hm x (List.mem_cons_of_mem r hx))
          constructor
          · simp only [List.map_cons, ihmap]
            congr 1
            unfold stripRow
            by_cases hc1 : m1 ≠ pr <;> by_cases hc2 : m2 ≠ ps <;>
              simp only [hc1, hc2, if_true, if_false, ite_true, ite_false] <;>
              cases r <;>
              simp_all [trimStar_emphWrap]
          · intro x hx
            rcases List.mem_cons.mp hx with rfl | hx2
            · by_cases hc2 : m2 ≠ ps
              · simpa [hc2] using emphWrap_ne_header r.Version
              · simpa [hc2] using ne_header_of_dot (minorIdent_dot h2)
            · exact ihver x hx2

/-- The version column of a successful formatting loop agrees with
`versionCol`, which never looks at the runtime fields or the runtime state. -/
theorem emphLoop_versionCol : ∀ (l : List tableRow) (pr ps : String) (out : List tableRow),
    emphLoop l pr ps = some out → out.map tableRow.Version = versionCol l ps := by
  intro l
  induction l with
  | nil =>
    intro pr ps out h
    simp only [emphLoop, Option.some.injEq] at h
    subst h
    simp [versionCol]
  | cons r rest ih =>
    intro pr ps out h
    rcases h1 : runMinorIdent r.Runtime with _ | m1
    · simp only [emphLoop, h1] at h
      exact Option.noConfusion h
    · rcases h2 : minorIdent r.Version with _ | m2
      · simp only [emphLoop, h1, h2] at h
        exact Option.noConfusion h
      · simp only [emphLoop, h1, h2] at h
        rcases h3 : emphLoop rest (if m1 ≠ pr then m1 else pr) (if m2 ≠ ps then m2 else ps)
            with _ | l2
        · rw [h3] at h; cases h
        · rw [h3] at h
          simp only [Option.some.injEq] at h
          subst h
          simp only [List.map_cons, versionCol, h2]
          congr 1
          exact ih _ _ l2 h3

/-- Reading back a list of written rows whose version fields avoid the header
sentinel yields exactly the trimmed rows. -/
theorem readTable_map : ∀ (l : List tableRow), (∀ r ∈ l, r.Version ≠ "Version") →
    readTable (l.map tableRow.toStrings) = .ok (l.map stripRow) := by
  intro l
  induction l with
  | nil => intro; rfl
  | cons r rest ih =>
    intro hv
    have hne : r.Version ≠ "Version" := hv r (List.mem_cons_self r rest)
    have hfs : tableRow.fromStrings (tableRow.toStrings r) = .ok (stripRow r) := by
      simp [tableRow.fromStrings, tableRow.toStrings, stripRow]
    simp only [List.map_cons, readTable, tableRow.toStrings]
    rw [if_neg (by simpa using hne)]
    rw [show [r.Version, r.Runtime, r.Date] = tableRow.toStrings r from rfl, hfs]
    rw [ih (fun x hx => hv x (List.mem_cons_of_mem r hx))]

/-! ## The claims -/

/-- C1 (counterexample): with both `Version` fields non-empty, `merge` returns
the second record's value — the populated field of the first (left) record is
overwritten by the second record, contrary to the claim that the first
record's non-empty field always survives. -/
theorem c1_left_bias_cex :
    ({ Version := "v1.0.0", Runtime := "", Date := "" } : tableRow).Version ≠ "" ∧
    (tableRow.merge { Version := "v1.0.0", Runtime := "", Date := "" }
        { Version := "v2.0.0", Runtime := "", Date := "" }).Version = "v2.0.0" ∧
    ("v2.0.0" : String) ≠ "v1.0.0" :=
  ⟨by decide, rfl, by decide⟩

/-- C1 (amended): each field of `merge(a, b)` equals `b`'s field when `b`'s
field is non-empty and `a`'s field otherwise — the merge is right-biased on
conflicts: a populated field of `a` survives exactly when `b`'s field is
empty, and a result field is empty only when it is empty in both records. -/
theorem c1_merge_fieldwise (a b : tableRow) :
    (a.merge b).Version = (if b.Version = "" then a.Version else b.Version) ∧
    (a.merge b).Runtime = (if b.Runtime = "" then a.Runtime else b.Runtime) ∧
    (a.merge b).Date = (if b.Date = "" then a.Date else b.Date) :=
  ⟨rfl, rfl, rfl⟩

/-- C2: the seed record's date field is produced by Go `time.Format` with the
layout `"2006-01-01"`, which renders year-month-month; for a release created
2023-01-12 the seed date is `"2023-01-01"` — not the ISO `YYYY-MM-DD`
rendering `"2023-01-12"` the claim (and the spec) prescribe.  The day of the
month is never written. -/
theorem c2_seed_date_wrong_layout :
    (seedRow { tagName := "v1.23.1", createdAt := ⟨2023, 1, 12⟩, assets := [] }).Date
        = "2023-01-01" ∧
    isoDate ⟨2023, 1, 12⟩ = "2023-01-12" ∧
    (seedRow { tagName := "v1.23.1", createdAt := ⟨2023, 1, 12⟩, assets := [] }).Date
        ≠ isoDate ⟨2023, 1, 12⟩ :=
  ⟨by decide, by decide, by decide⟩

/-- C3 (counterexample): the seed of `relTarGz` carries recovered fields (the
tag and the formatted creation date), the single matching asset's archive
fails to decode, and the driver writes nothing — the table stays empty, so the
seed row is discarded rather than written. -/
theorem c3_seed_discarded_cex :
    (seedRow relTarGz).Version = "v1.0.0" ∧ (seedRow relTarGz).Date = "2021-05-05" ∧
    getReleaseVersion failHost relTarGz = .error "gzip: invalid header" ∧
    driverStep failHost [] [] relTarGz = [] :=
  ⟨by decide, by decide, rfl, rfl⟩

/-- C3 (amended): whenever the per-release resolution fails — for any host,
release and failure mode: no matching asset, download failure, corrupt
archive, missing executable entry, or probe failure — `getReleaseVersion`
surfaces only the error (the returned row on every error path is the zero
row, not the seed) and the driver appends nothing: the recovered seed fields
are discarded, not written. -/
theorem c3_failed_release_skipped (h : resolveHost) (seen : List String)
    (table : List tableRow) (rel : Release) (e : String)
    (hfail : getReleaseVersion h rel = .error e) :
    driverStep h seen table rel = table := by
  unfold driverStep
  by_cases hs : seen.contains rel.tagName = true
  · rw [if_pos hs]
  · rw [if_neg hs, hfail]

/-- C3 (witness): each enumerated failure mode — no matching asset, a corrupt
zip archive, a corrupt gzip header, a tar archive without the executable
entry, and a failing probe of a found zip entry — produces a resolution error
and leaves the table unchanged. -/
theorem c3_failed_release_skipped_witness :
    driverStep failHost ["v0.9.9"]
      [{ Version := "v0.9.9", Runtime := "go1.2", Date := "2020-12-12" }]
      { tagName := "v1.1.0", createdAt := ⟨2021, 6, 7⟩, assets := [] }
      = [{ Version := "v0.9.9", Runtime := "go1.2", Date := "2020-12-12" }] ∧
    driverStep failHost [] []
      { tagName := "v1.2.0", createdAt := ⟨2021, 6, 7⟩
        assets := [{ name := "syncthing-linux-amd64-v1.2.0.zip", url := "u2" }] } = [] ∧
    driverStep failHost [] [] relTarGz = [] ∧
    driverStep probeFailHost [] []
      { tagName := "v1.3.0", createdAt := ⟨2021, 6, 7⟩
        assets := [{ name := "syncthing-linux-amd64-v1.3.0.tar.gz", url := "u3" }] } = [] ∧
    driverStep probeFailHost [] []
      { tagName := "v1.4.0", createdAt := ⟨2021, 6, 7⟩
        assets := [{ name := "syncthing-linux-amd64-v1.4.0.zip", url := "u4" }] } = [] :=
  ⟨c3_failed_release_skipped failHost ["v0.9.9"] _ _ "no asset found" rfl,
   c3_failed_release_skipped failHost [] [] _ "zip: not a valid zip file" rfl,
   c3_failed_release_skipped failHost [] [] relTarGz "gzip: invalid header" rfl,
   c3_failed_release_skipped probeFailHost [] [] _ "no syncthing binary found" rfl,
   c3_failed_release_skipped probeFailHost [] [] _ "exec failed" rfl⟩

/-- C4: a zip archive listing the nested entry `bin/syncthing` (contents
handle 0) before the top-level entry `syncthing` (handle 1) probes handle 0:
`path.Dir "bin/syncthing" = "bin"` contains no slash, so the nested entry
passes the top-level filter and is selected first — contradicting the claim
(and the source's own comment) that entries not at the top level are
skipped. -/
theorem c4_nested_entry_selected :
    getReleaseVersionZip (fun h => .ok { Version := "", Runtime := Nat.repr h, Date := "" })
      (.ok [{ name := "bin/syncthing", openRes := .ok 0 },
            { name := "syncthing", openRes := .ok 1 }])
      = .ok { Version := "", Runtime := "0", Date := "" } := rfl

/-- C5: when the copy of the executable bytes into the temporary file fails,
`getVersionFromReader` returns with the temporary file still present (second
component `true`): `defer os.Remove` is registered only after the `io.Copy`
error check, so the removal guarantee fails on exactly that exit path. -/
theorem c5_temp_file_leak_on_copy_failure :
    getVersionFromReader
      { createRes := .ok ()
        copyRes := .error "short write"
        chmodRes := .ok ()
        cmdRes := .error "exec failed"
        goRes := .error "no version" }
      = (.error "short write", true) := rfl

/-- C6 (counterexample): with a valid gzip header, a corrupt tar stream
(`tar.Next` failing immediately) produces exactly the same
"no syncthing binary found" error as an archive that simply lacks the
executable entry — the two failures are conflated, not distinguishable. -/
theorem c6_corrupt_tar_conflated_cex :
    getReleaseVersionTarGz (fun _ => .error "unused") (.ok ())
        [.error "archive/tar: invalid tar header"]
      = .error "no syncthing binary found" ∧
    getReleaseVersionTarGz (fun _ => .error "unused") (.ok ()) []
      = .error "no syncthing binary found" :=
  ⟨rfl, rfl⟩

/-- C6 (amended): a corrupt zip header and a corrupt gzip header surface the
decoder's own error, distinct from the entry-not-found error whenever the
decoder's message differs from it; but a corrupt tar stream behind a valid
gzip header breaks the scan and yields exactly the entry-not-found error. -/
theorem c6_error_paths (zp : Nat → Except String tableRow)
    (tp : String → Except String tableRow) (e : String)
    (items : List (Except String String))
    (hne : e ≠ "no syncthing binary found") :
    getReleaseVersionZip zp (.error e) = .error e ∧
    getReleaseVersionTarGz tp (.error e) items = .error e ∧
    (Except.error e : Except String tableRow) ≠ .error "no syncthing binary found" ∧
    getReleaseVersionTarGz tp (.ok ()) (.error e :: items)
      = .error "no syncthing binary found" := by
  refine ⟨rfl, rfl, ?_, rfl⟩
  simp [hne]

/-- C6 (witness). -/
theorem c6_error_paths_witness :
    getReleaseVersionZip (fun _ => .error "unused") (.error "unexpected EOF")
        = .error "unexpected EOF" ∧
    getReleaseVersionTarGz (fun _ => .error "unused") (.error "unexpected EOF") []
        = .error "unexpected EOF" ∧
    (Except.error "unexpected EOF" : Except String tableRow)
        ≠ .error "no syncthing binary found" ∧
    getReleaseVersionTarGz (fun _ => .error "unused") (.ok ())
        [.error "unexpected EOF"] = .error "no syncthing binary found" :=
  c6_error_paths (fun _ => .error "unused") (fun _ => .error "unused")
    "unexpected EOF" [] (by decide)

/-- C7: for the three-row table v1.2.0/2021-01-01, v1.2.1/2021-02-01,
v1.3.0/2021-03-01 (with any runtimes containing a dot), the written version
column emphasizes exactly v1.2.0 and v1.3.0 — the first row of each distinct
minor series in the oldest-first scan of the sorted order — and does not
emphasize v1.2.1. -/
theorem c7_minor_emphasis (rt1 rt2 rt3 : String)
    (h1 : '.' ∈ rt1.data) (h2 : '.' ∈ rt2.data) (h3 : '.' ∈ rt3.data) :
    Option.map (fun recs => recs.map (fun ss => ss.headD ""))
      (writeTable [{ Version := "v1.2.0", Runtime := rt1, Date := "2021-01-01" },
        { Version := "v1.2.1", Runtime := rt2, Date := "2021-02-01" },
        { Version := "v1.3.0", Runtime := rt3, Date := "2021-03-01" }])
    = some ["Version", "**v1.3.0**", "v1.2.1", "**v1.2.0**"] := by
  have hrev : (sortRows [{ Version := "v1.2.0", Runtime := rt1, Date := "2021-01-01" },
      { Version := "v1.2.1", Runtime := rt2, Date := "2021-02-01" },
      { Version := "v1.3.0", Runtime := rt3, Date := "2021-03-01" }]).reverse
      = [{ Version := "v1.2.0", Runtime := rt1, Date := "2021-01-01" },
        { Version := "v1.2.1", Runtime := rt2, Date := "2021-02-01" },
        { Version := "v1.3.0", Runtime := rt3, Date := "2021-03-01" }] := rfl
  have hsome : (emphLoop [{ Version := "v1.2.0", Runtime := rt1, Date := "2021-01-01" },
      { Version := "v1.2.1", Runtime := rt2, Date := "2021-02-01" },
      { Version := "v1.3.0", Runtime := rt3, Date := "2021-03-01" }] "" "").isSome := by
    rw [emphLoop_isSome_iff]
    intro r hr
    simp only [List.mem_cons, List.not_mem_nil, or_false] at hr
    rcases hr with rfl | rfl | rfl
    · exact ⟨h1, (by decide : '.' ∈ ("v1.2.0" : String).data)⟩
    · exact ⟨h2, (by decide : '.' ∈ ("v1.2.1" : String).data)⟩
    · exact ⟨h3, (by decide : '.' ∈ ("v1.3.0" : String).data)⟩
  obtain ⟨out, hout⟩ := Option.isSome_iff_exists.mp hsome
  have hvc : out.map tableRow.Version
      = versionCol [{ Version := "v1.2.0", Runtime := rt1, Date := "2021-01-01" },
        { Version := "v1.2.1", Runtime := rt2, Date := "2021-02-01" },
        { Version := "v1.3.0", Runtime := rt3, Date := "2021-03-01" }] "" :=
    emphLoop_versionCol _ _ _ out hout
  have hvc2 : versionCol [{ Version := "v1.2.0", Runtime := rt1, Date := "2021-01-01" },
      { Version := "v1.2.1", Runtime := rt2, Date := "2021-02-01" },
      { Version := "v1.3.0", Runtime := rt3, Date := "2021-03-01" }] ""
      = ["**v1.2.0**", "v1.2.1", "**v1.3.0**"] := rfl
  unfold writeTable
  rw [hrev, hout, Option.map_some', Option.map_some']
  congr 1
  simp only [List.map_cons]
  congr 1
  rw [List.map_map]
  have hcomp : ((fun ss => List.headD ss "") ∘ tableRow.toStrings) = tableRow.Version := rfl
  rw [hcomp, List.map_reverse, hvc, hvc2]
  rfl

/-- C7 (witness). -/
theorem c7_minor_emphasis_witness :
    Option.map (fun recs => recs.map (fun ss => ss.headD ""))
      (writeTable [{ Version := "v1.2.0", Runtime := "go1.18.1", Date := "2021-01-01" },
        { Version := "v1.2.1", Runtime := "go1.18.2", Date := "2021-02-01" },
        { Version := "v1.3.0", Runtime := "go1.19.1", Date := "2021-03-01" }])
    = some ["Version", "**v1.3.0**", "v1.2.1", "**v1.2.0**"] :=
  c7_minor_emphasis "go1.18.1" "go1.18.2" "go1.19.1" (by decide) (by decide) (by decide)

set_option maxRecDepth 8000

/-- C8: the self-report parser applied to the documented banner yields exactly
the record `{version: v1.23.1, runtime: go1.19.5, date: 2023-01-12}` — the
release-candidate suffix `-rc.1` is ignored for the captured version token. -/
theorem c8_banner_parse :
    tableRow.fromVersion "syncthing v1.23.1-rc.1 \"Fermium Flea\" (go1.19.5 darwin-arm64) teamcity@build.syncthing.net 2023-01-12 03:30:17 UTC [stnoupgrade]"
      = .ok { Version := "v1.23.1", Runtime := "go1.19.5", Date := "2023-01-12" } := rfl

/-- C9: for a table whose rows carry no surrounding emphasis markers and have
unique version keys, reading back the records written by `writeTable`
succeeds and reproduces the same rows — as a multiset, i.e. ignoring the
emphasis formatting and the sort order. -/
theorem c9_roundtrip (rows : List tableRow) (recs : List (List String))
    (hm : ∀ r ∈ rows, stripRow r = r)
    (huniq : (rows.map tableRow.Version).Nodup)
    (hw : writeTable rows = some recs) :
    ∃ loaded, readTable recs = .ok loaded ∧ List.Perm loaded rows := by
  unfold writeTable at hw
  rcases h3 : emphLoop (sortRows rows).reverse "" "" with _ | out
  · rw [h3] at hw
    exact Option.noConfusion hw
  · rw [h3, Option.map_some'] at hw
    have hrecs : recs = tableHeader :: (out.reverse.map tableRow.toStrings) :=
      (Option.some.inj hw).symm
    subst hrecs
    have hmem : ∀ r ∈ (sortRows rows).reverse, stripRow r = r := fun r hr =>
      hm r ((sortRows_perm rows).mem_iff.mp (List.mem_reverse.mp hr))
    obtain ⟨hstrip, hver⟩ := emphLoop_strip _ _ _ out h3 hmem
    have hread := readTable_map out.reverse (fun x hx => hver x (List.mem_reverse.mp hx))
    refine ⟨out.reverse.map stripRow, ?_, ?_⟩
    · show readTable (tableHeader :: (out.reverse.map tableRow.toStrings)) = _
      rw [show readTable (tableHeader :: (out.reverse.map tableRow.toStrings))
          = readTable (out.reverse.map tableRow.toStrings) from rfl]
      exact hread
    · have hmapeq : out.reverse.map stripRow = sortRows rows := by
        rw [List.map_reverse, hstrip, List.reverse_reverse]
      rw [hmapeq]
      exact sortRows_perm rows

/-- C9 (witness). -/
theorem c9_roundtrip_witness :
    ∃ loaded, readTable [["Version", "Runtime", "Date"],
        ["**v1.0.0**", "**go1.2**", "2021-01-01"]] = .ok loaded ∧
      List.Perm loaded [{ Version := "v1.0.0", Runtime := "go1.2", Date := "2021-01-01" }] :=
  c9_roundtrip [{ Version := "v1.0.0", Runtime := "go1.2", Date := "2021-01-01" }]
    [["Version", "Runtime", "Date"], ["**v1.0.0**", "**go1.2**", "2021-01-01"]]
    (by decide) (by decide) (by decide)

/-- C10: `writeTable` succeeds exactly when every row's `Version` and every
row's `Runtime` contain at least one `'.'`; a row with a dotless `Version` or
a dotless `Runtime` (for instance an empty one) makes the minor-identifier
slice panic, modelled as `none` — the pass panics rather than returning an
error. -/
theorem c10_write_totality (rows : List tableRow) :
    (writeTable rows).isSome ↔ ∀ r ∈ rows, '.' ∈ r.Version.data ∧ '.' ∈ r.Runtime.data := by
  unfold writeTable
  rw [Option.isSome_map', emphLoop_isSome_iff]
  constructor
  · intro h r hr
    have := h r (List.mem_reverse.mpr ((sortRows_perm rows).symm.mem_iff.mp hr))
    exact ⟨this.2, this.1⟩
  · intro h r hr
    have := h r ((sortRows_perm rows).mem_iff.mp (List.mem_reverse.mp hr))
    exact ⟨this.2, this.1⟩
